import Mathlib

/-!
# Value-study image pipeline: formal model

A shallow embedding of `src/utils/imageProcessing.ts`.  JavaScript numbers
are modelled by `ℚ` (every quantity that arises in the claims below is an
exact binary-representable value or is far from any rounding boundary, so
the rational model agrees with IEEE double evaluation there), byte buffers
by `List ℕ`.  `Math.round` rounds to the nearest integer with halves toward
positive infinity; storing into a `Uint8Array` slot reduces the integer
modulo 256; storing into a `Uint8ClampedArray` slot clamps into `[0, 255]`.
-/

/-- JavaScript `Math.round`: round to nearest, halves toward `+∞`. -/
def jsRound (q : ℚ) : ℤ := ⌊q + 1/2⌋

/-- Storing an integer into a `Uint8Array` slot: reduce modulo `2^8`. -/
def toUint8 (z : ℤ) : ℕ := (z % 256).toNat

/-- Storing an integer into a `Uint8ClampedArray` slot: clamp into `[0,255]`. -/
def toUint8Clamped (z : ℤ) : ℕ := (min 255 (max 0 z)).toNat

/-- `Math.max(0, Math.min(255, q))`, the clamp used by `buildLUT` and
`applyContrast`. -/
def clamp255 (q : ℚ) : ℚ := max 0 (min 255 q)

/-- The contrast factor `259 * (contrast + 255) / (255 * (259 - contrast))`. -/
def contrastFactor (contrast : ℚ) : ℚ :=
  (259 * (contrast + 255)) / (255 * (259 - contrast))

/-- The quantization step `255 / (levels - 1)`. -/
def quantStep (levels : ℕ) : ℚ := 255 / ((levels : ℚ) - 1)

/-- The helper `quantize` of the source:
`Math.round(Math.round(gray / step) * step)` with `step = 255 / (levels - 1)`. -/
def quantize (gray : ℚ) (levels : ℕ) : ℤ :=
  jsRound ((jsRound (gray / quantStep levels) : ℚ) * quantStep levels)

/-- The per-index value computed by the `buildLUT` loop before clamping:
`contrast !== 0 ? factor * (i - 128) + 128 : i`. -/
def lutVal (contrast : ℚ) (i : ℕ) : ℚ :=
  if contrast ≠ 0 then contrastFactor contrast * ((i : ℚ) - 128) + 128 else (i : ℚ)

/-- One entry of the lookup table:
`lut[i] = Math.round(Math.round(val / step) * step)` after clamping `val`. -/
def lutEntry (levels : ℕ) (contrast : ℚ) (i : ℕ) : ℕ :=
  toUint8 (quantize (clamp255 (lutVal contrast i)) levels)

/-- `buildLUT`: the 256-entry lookup table. -/
def buildLUT (levels : ℕ) (contrast : ℚ) : List ℕ :=
  (List.range 256).map (lutEntry levels contrast)

/-- The helper `rgbToGray` of the source: `0.299 * r + 0.587 * g + 0.114 * b`. -/
def rgbToGray (r g b : ℚ) : ℚ := 299/1000 * r + 587/1000 * g + 114/1000 * b

/-- The helper `applyContrast` of the source: the contrast curve followed by
the clamp `Math.max(0, Math.min(255, result))`. -/
def applyContrast (value contrast : ℚ) : ℚ :=
  clamp255 (contrastFactor contrast * (value - 128) + 128)

/-- A decoded image: flattened RGBA byte data together with its dimensions. -/
structure ImageData where
  data : List ℕ
  width : ℕ
  height : ℕ

/-- The `ImageData` constructor: fails (throws in JS) unless the buffer length
matches `width * height * 4`. -/
def mkImageData (data : List ℕ) (width height : ℕ) : Option ImageData :=
  if data.length = width * height * 4 then some ⟨data, width, height⟩ else none

/-- `extractGrayscale`: one rounded BT.601 luminance byte per pixel. -/
def extractGrayscale (img : ImageData) : List ℕ :=
  (List.range (img.width * img.height)).map fun i =>
    toUint8 (jsRound (rgbToGray (img.data.getD (4*i) 0) (img.data.getD (4*i+1) 0)
      (img.data.getD (4*i+2) 0)))

/-- The loop body of `applyLUT`: for each grayscale sample, write the
looked-up tone to R, G, B and `255` to alpha. -/
def applyLUTdata (grayData lut : List ℕ) : List ℕ :=
  match grayData with
  | [] => []
  | g :: rest =>
      lut.getD g 0 :: lut.getD g 0 :: lut.getD g 0 :: 255 :: applyLUTdata rest lut

/-- `applyLUT`: the transformed buffer wrapped in an `ImageData` of the
declared dimensions. -/
def applyLUT (grayData lut : List ℕ) (width height : ℕ) : Option ImageData :=
  mkImageData (applyLUTdata grayData lut) width height

/-- The per-pixel computation of `createValueStudy`: luminance, optional
contrast, quantization, stored through the `Uint8ClampedArray` output. -/
def valueStudyPixel (levels : ℕ) (contrast : ℚ) (r g b : ℕ) : ℕ :=
  toUint8Clamped (quantize
    (if contrast ≠ 0 then applyContrast (rgbToGray r g b) contrast
     else rgbToGray r g b) levels)

/-- The loop of `createValueStudy` over the flattened RGBA data: each pixel
gets its quantized tone in R, G, B and its original alpha back. -/
def createValueStudyData (data : List ℕ) (levels : ℕ) (contrast : ℚ) : List ℕ :=
  match data with
  | r :: g :: b :: a :: rest =>
      valueStudyPixel levels contrast r g b :: valueStudyPixel levels contrast r g b ::
      valueStudyPixel levels contrast r g b :: toUint8Clamped a ::
      createValueStudyData rest levels contrast
  | _ => []

/-- `createValueStudy`: the one-pass direct implementation. -/
def createValueStudy (img : ImageData) (levels : ℕ) (contrast : ℚ) :
    Option ImageData :=
  mkImageData (createValueStudyData img.data levels contrast) img.width img.height

/-! ## Kernel-computable integer forms

The rational pipeline only ever rounds values of the form `n / d` with
`n d : ℕ`, and `⌊n/d + 1/2⌋ = (2*n + d) / (2*d)` as natural floor division.
These bridges let concrete table entries be evaluated by `decide`. -/

/-- Integer form of `quantize ((n : ℚ) / (d : ℚ)) levels` for `d ≠ 0`,
`2 ≤ levels`. -/
def quantizeNat (n d L : ℕ) : ℕ :=
  (2 * (((2 * (n * (L-1)) + 255 * d) / (2 * (255 * d))) * 255) + (L-1)) / (2 * (L-1))

/-- Integer form of the rounded BT.601 luminance of a pixel. -/
def grayNat (r g b : ℕ) : ℕ := (2 * (299*r + 587*g + 114*b) + 1000) / (2 * 1000)

/-- A concrete demonstration LUT whose entry 76 is 128 and whose other
entries are 0. -/
def demoLUT : List ℕ := List.replicate 76 0 ++ 128 :: List.replicate 179 0

/-- The R-channel samples (every fourth byte) of an RGBA buffer. -/
def rgbaPixelValues : List ℕ → List ℕ
  | r :: _ :: _ :: _ :: rest => r :: rgbaPixelValues rest
  | _ => []

/-- The set of distinct tones appearing in the output of `applyLUT`. -/
def toneValues (grayData lut : List ℕ) : Finset ℕ :=
  (rgbaPixelValues (applyLUTdata grayData lut)).toFinset

theorem jsRound_natCast_div (n d : ℕ) (hd : d ≠ 0) :
    jsRound ((n : ℚ) / (d : ℚ)) = ((2*n + d) / (2*d) : ℕ) := by
  have hdq : (d : ℚ) ≠ 0 := Nat.cast_ne_zero.mpr hd
  have key : (n : ℚ) / (d : ℚ) + 1/2 = ((2*n + d : ℕ) : ℚ) / ((2*d : ℕ) : ℚ) := by
    push_cast
    field_simp
    ring
  rw [jsRound, key, Rat.floor_natCast_div_natCast, Int.natCast_div]

theorem jsRound_nonneg {q : ℚ} (h : 0 ≤ q) : 0 ≤ jsRound q := by
  rw [jsRound, Int.le_floor]
  push_cast
  linarith

theorem jsRound_le {q : ℚ} {m : ℤ} (h : q ≤ (m : ℚ)) : jsRound q ≤ m := by
  rw [jsRound, ← Int.lt_add_one_iff, Int.floor_lt]
  push_cast
  linarith

theorem jsRound_mono {p q : ℚ} (h : p ≤ q) : jsRound p ≤ jsRound q :=
  Int.floor_le_floor (by linarith)

theorem jsRound_intCast (z : ℤ) : jsRound (z : ℚ) = z :=
  le_antisymm (jsRound_le le_rfl)
    (by rw [jsRound, Int.le_floor]; linarith)

theorem toUint8_eq_toNat {z : ℤ} (h0 : 0 ≤ z) (h255 : z ≤ 255) :
    toUint8 z = z.toNat := by
  rw [toUint8, Int.emod_eq_of_lt h0 (by omega)]

theorem toUint8Clamped_eq_toNat {z : ℤ} (h0 : 0 ≤ z) (h255 : z ≤ 255) :
    toUint8Clamped z = z.toNat := by
  rw [toUint8Clamped, max_eq_right h0, min_eq_right h255]

theorem toUint8_natCast {n : ℕ} (h : n ≤ 255) : toUint8 (n : ℤ) = n := by
  rw [toUint8_eq_toNat (by positivity) (by exact_mod_cast h), Int.toNat_natCast]

theorem clamp255_nonneg (q : ℚ) : 0 ≤ clamp255 q := le_max_left 0 _

theorem clamp255_le (q : ℚ) : clamp255 q ≤ 255 :=
  max_le (by norm_num) (min_le_left 255 q)

theorem clamp255_of_mem {q : ℚ} (h0 : 0 ≤ q) (h255 : q ≤ 255) : clamp255 q = q := by
  rw [clamp255, min_eq_right h255, max_eq_right h0]

theorem clamp255_mono {p q : ℚ} (h : p ≤ q) : clamp255 p ≤ clamp255 q :=
  max_le_max le_rfl (min_le_min le_rfl h)

theorem quantStep_pos {L : ℕ} (hL : 2 ≤ L) : 0 < quantStep L := by
  rw [quantStep]
  have : (2 : ℚ) ≤ (L : ℚ) := by exact_mod_cast hL
  apply div_pos (by norm_num)
  linarith

/-- The inner rounded level index is at most `levels - 1`. -/
theorem level_index_le {L : ℕ} (hL : 2 ≤ L) {q : ℚ} (hq : q ≤ 255) :
    jsRound (q / quantStep L) ≤ (L : ℤ) - 1 := by
  have hs := quantStep_pos hL
  have hLq : (2 : ℚ) ≤ (L : ℚ) := by exact_mod_cast hL
  have key : q / quantStep L ≤ ((L : ℚ) - 1) := by
    rw [quantStep, div_div_eq_mul_div, div_le_iff (by norm_num)]
    nlinarith
  have := jsRound_le (m := (L : ℤ) - 1) (by push_cast; linarith)
  exact this

/-- Range of `quantize` on clamped input: the output tone is a byte. -/
theorem quantize_mem {L : ℕ} (hL : 2 ≤ L) {q : ℚ} (h0 : 0 ≤ q) (h255 : q ≤ 255) :
    0 ≤ quantize q L ∧ quantize q L ≤ 255 := by
  have hs := quantStep_pos hL
  have hk0 : 0 ≤ jsRound (q / quantStep L) := jsRound_nonneg (by positivity)
  have hk1 := level_index_le hL h255
  constructor
  · exact jsRound_nonneg (by positivity)
  · apply jsRound_le
    have hcast : ((jsRound (q / quantStep L) : ℚ)) ≤ (L : ℚ) - 1 := by
      have := hk1
      push_cast at this ⊢
      exact_mod_cast this
    have hmul : ((jsRound (q / quantStep L) : ℚ)) * quantStep L ≤ ((L : ℚ) - 1) * quantStep L :=
      mul_le_mul_of_nonneg_right hcast hs.le
    have hstep : ((L : ℚ) - 1) * quantStep L = 255 := by
      have hLq : (2 : ℚ) ≤ (L : ℚ) := by exact_mod_cast hL
      have hne : (L : ℚ) - 1 ≠ 0 := by linarith
      rw [quantStep]
      field_simp
    push_cast
    linarith [hmul, hstep.le]

theorem quantize_mono {L : ℕ} (hL : 2 ≤ L) {p q : ℚ} (h : p ≤ q) :
    quantize p L ≤ quantize q L := by
  have hs := quantStep_pos hL
  apply jsRound_mono
  have h1 : p / quantStep L ≤ q / quantStep L := by
    rw [div_le_div_iff hs hs]
    nlinarith
  have h2 : ((jsRound (p / quantStep L) : ℤ) : ℚ) ≤ ((jsRound (q / quantStep L) : ℤ) : ℚ) := by
    exact_mod_cast jsRound_mono h1
  exact mul_le_mul_of_nonneg_right h2 hs.le

theorem quantize_natCast_div {n d L : ℕ} (hd : d ≠ 0) (hL : 2 ≤ L) :
    quantize ((n : ℚ) / (d : ℚ)) L = (quantizeNat n d L : ℤ) := by
  have hL1 : 1 ≤ L := le_trans (by norm_num) hL
  have hLc : ((L - 1 : ℕ) : ℚ) = (L : ℚ) - 1 := by
    push_cast [Nat.cast_sub hL1]
    ring
  have hLq : (2 : ℚ) ≤ (L : ℚ) := by exact_mod_cast hL
  have hne : (L : ℚ) - 1 ≠ 0 := by linarith
  have hdq : (d : ℚ) ≠ 0 := Nat.cast_ne_zero.mpr hd
  have hinner : (n : ℚ) / (d : ℚ) / quantStep L
      = ((n * (L-1) : ℕ) : ℚ) / ((255 * d : ℕ) : ℚ) := by
    rw [quantStep]
    push_cast [Nat.cast_sub hL1]
    rw [div_div_eq_mul_div, div_mul_eq_mul_div, div_div, mul_comm (d : ℚ) 255]
  have houter : ∀ k : ℕ, (k : ℚ) * quantStep L
      = ((k * 255 : ℕ) : ℚ) / ((L - 1 : ℕ) : ℚ) := by
    intro k
    rw [quantStep, hLc]
    push_cast
    field_simp
  rw [quantize, hinner,
    jsRound_natCast_div (n * (L-1)) (255 * d) (by positivity),
    Int.cast_natCast, houter,
    jsRound_natCast_div _ (L-1) (by omega), quantizeNat]

theorem quantize_natCast {n L : ℕ} (hL : 2 ≤ L) :
    quantize (n : ℚ) L = (quantizeNat n 1 L : ℤ) := by
  have : (n : ℚ) = (n : ℚ) / ((1 : ℕ) : ℚ) := by norm_num
  rw [this, quantize_natCast_div (by norm_num) hL]

theorem quantizeNat_le {n L : ℕ} (hL : 2 ≤ L) (hn : n ≤ 255) :
    quantizeNat n 1 L ≤ 255 := by
  have h := quantize_mem hL (q := (n : ℚ)) (by positivity) (by exact_mod_cast hn)
  rw [quantize_natCast hL] at h
  exact_mod_cast h.2

/-- With `contrast = 0` the table entry is just the quantization of `i`, in
kernel-computable integer form. -/
theorem lutEntry_zero {L i : ℕ} (hL : 2 ≤ L) (hi : i ≤ 255) :
    lutEntry L 0 i = quantizeNat i 1 L := by
  have hval : lutVal 0 i = (i : ℚ) := by simp [lutVal]
  have hclamp : clamp255 (i : ℚ) = (i : ℚ) :=
    clamp255_of_mem (by positivity) (by exact_mod_cast hi)
  rw [lutEntry, hval, hclamp, quantize_natCast hL,
    toUint8_natCast (quantizeNat_le hL hi)]

theorem getD_range_map (f : ℕ → ℕ) {n i : ℕ} (hi : i < n) :
    ((List.range n).map f).getD i 0 = f i := by
  simp [List.getD_eq_getElem?_getD, List.getElem?_map, List.getElem?_range hi]

theorem getD_buildLUT (L : ℕ) (c : ℚ) {i : ℕ} (hi : i < 256) :
    (buildLUT L c).getD i 0 = lutEntry L c i :=
  getD_range_map _ hi

/-- The kernel-computable form of the zero-contrast table. -/
theorem buildLUT_zero_eq (L : ℕ) (hL : 2 ≤ L) :
    buildLUT L 0 = (List.range 256).map fun i => quantizeNat i 1 L := by
  apply List.map_congr_left
  intro i hi
  exact lutEntry_zero hL (by have := List.mem_range.mp hi; omega)

theorem getD_cons4 (x1 x2 x3 x4 : ℕ) (tail : List ℕ) (m : ℕ) :
    (x1 :: x2 :: x3 :: x4 :: tail).getD (m+4) 0 = tail.getD m 0 := rfl

theorem applyLUTdata_length (gray lut : List ℕ) :
    (applyLUTdata gray lut).length = 4 * gray.length := by
  induction gray with
  | nil => simp [applyLUTdata]
  | cons g rest ih =>
    simp only [applyLUTdata, List.length_cons, ih]
    omega

theorem applyLUTdata_getD (gray lut : List ℕ) {i k : ℕ} (hi : i < gray.length)
    (hk : k < 4) :
    (applyLUTdata gray lut).getD (4*i+k) 0 =
      if k = 3 then 255 else lut.getD (gray.getD i 0) 0 := by
  induction gray generalizing i with
  | nil => simp at hi
  | cons g rest ih =>
    cases i with
    | zero =>
      interval_cases k <;> simp [applyLUTdata]
    | succ j =>
      have hj : j < rest.length := by
        simp only [List.length_cons] at hi
        omega
      have ek : 4*(j+1)+k = (4*j+k)+4 := by ring
      have e3 : 4*(j+1)+3 = (4*j+3)+4 := by ring
      rw [ek, applyLUTdata, getD_cons4, ih hj, List.getD_cons_succ]

theorem createValueStudyData_cons (r g b a : ℕ) (rest : List ℕ) (L : ℕ) (c : ℚ) :
    createValueStudyData (r :: g :: b :: a :: rest) L c =
      valueStudyPixel L c r g b :: valueStudyPixel L c r g b ::
      valueStudyPixel L c r g b :: toUint8Clamped a ::
      createValueStudyData rest L c := rfl

theorem createValueStudyData_getD (data : List ℕ) (L : ℕ) (c : ℚ) {i k : ℕ}
    (h : 4*i+3 < data.length) (hk : k < 4) :
    (createValueStudyData data L c).getD (4*i+k) 0 =
      if k = 3 then toUint8Clamped (data.getD (4*i+3) 0)
      else valueStudyPixel L c (data.getD (4*i) 0) (data.getD (4*i+1) 0)
        (data.getD (4*i+2) 0) := by
  induction i generalizing data with
  | zero =>
    match data with
    | [] => simp only [List.length_nil] at h; omega
    | [r] => simp only [List.length_cons, List.length_nil] at h; omega
    | [r, g] => simp only [List.length_cons, List.length_nil] at h; omega
    | [r, g, b] => simp only [List.length_cons, List.length_nil] at h; omega
    | r :: g :: b :: a :: rest =>
      rw [createValueStudyData_cons]
      interval_cases k <;> simp
  | succ j ih =>
    match data with
    | [] => simp only [List.length_nil] at h; omega
    | [r] => simp only [List.length_cons, List.length_nil] at h; omega
    | [r, g] => simp only [List.length_cons, List.length_nil] at h; omega
    | [r, g, b] => simp only [List.length_cons, List.length_nil] at h; omega
    | r :: g :: b :: a :: rest =>
      have hj : 4*j+3 < rest.length := by
        simp only [List.length_cons] at h
        omega
      have ek : 4*(j+1)+k = (4*j+k)+4 := by ring
      have e3 : 4*(j+1)+3 = (4*j+3)+4 := by ring
      have e2 : 4*(j+1)+2 = (4*j+2)+4 := by ring
      have e1 : 4*(j+1)+1 = (4*j+1)+4 := by ring
      have e0 : 4*(j+1) = (4*j)+4 := by ring
      rw [ek, e3, e2, e1, e0, createValueStudyData_cons, getD_cons4, getD_cons4,
        getD_cons4, getD_cons4, getD_cons4, ih rest hj]

theorem extractGrayscale_length (img : ImageData) :
    (extractGrayscale img).length = img.width * img.height := by
  simp [extractGrayscale]

theorem extractGrayscale_getD (img : ImageData) {i : ℕ}
    (hi : i < img.width * img.height) :
    (extractGrayscale img).getD i 0 =
      toUint8 (jsRound (rgbToGray (img.data.getD (4*i) 0) (img.data.getD (4*i+1) 0)
        (img.data.getD (4*i+2) 0))) :=
  getD_range_map _ hi

theorem rgbToGray_natCast (r g b : ℕ) :
    rgbToGray r g b = ((299*r + 587*g + 114*b : ℕ) : ℚ) / ((1000 : ℕ) : ℚ) := by
  rw [rgbToGray]
  push_cast
  field_simp

theorem rgbToGray_nonneg (r g b : ℕ) : 0 ≤ rgbToGray r g b := by
  rw [rgbToGray]
  positivity

theorem rgbToGray_le_255 {r g b : ℕ} (hr : r ≤ 255) (hg : g ≤ 255) (hb : b ≤ 255) :
    rgbToGray r g b ≤ 255 := by
  have hr' : (r : ℚ) ≤ 255 := by exact_mod_cast hr
  have hg' : (g : ℚ) ≤ 255 := by exact_mod_cast hg
  have hb' : (b : ℚ) ≤ 255 := by exact_mod_cast hb
  rw [rgbToGray]
  linarith

theorem grayNat_le {r g b : ℕ} (hr : r ≤ 255) (hg : g ≤ 255) (hb : b ≤ 255) :
    grayNat r g b ≤ 255 := by
  have h1 : 2*(299*r + 587*g + 114*b) + 1000 ≤ 511000 := by omega
  calc grayNat r g b ≤ 511000 / (2*1000) := Nat.div_le_div_right h1
  _ = 255 := by norm_num

/-- The grayscale sample of a pixel, in kernel-computable integer form. -/
theorem gray_pixel_eval {r g b : ℕ} (hr : r ≤ 255) (hg : g ≤ 255) (hb : b ≤ 255) :
    toUint8 (jsRound (rgbToGray r g b)) = grayNat r g b := by
  rw [rgbToGray_natCast, jsRound_natCast_div _ _ (by norm_num),
    show (2 * (299 * r + 587 * g + 114 * b) + 1000) / (2 * 1000) = grayNat r g b
      from rfl,
    toUint8_natCast (grayNat_le hr hg hb)]

theorem getD_le_of_forall {data : List ℕ} (hb : ∀ v ∈ data, v ≤ 255) {i : ℕ}
    (hi : i < data.length) : data.getD i 0 ≤ 255 := by
  rw [List.getD_eq_getElem?_getD, List.getElem?_eq_getElem hi]
  exact hb _ (List.getElem_mem hi)

/-- Every table entry is a byte and is the rounded multiple of the step for
some level index `k ≤ levels - 1`. -/
theorem lutEntry_form {L : ℕ} (hL : 2 ≤ L) (c : ℚ) (i : ℕ) :
    lutEntry L c i ≤ 255 ∧
      ∃ k : ℕ, k ≤ L - 1 ∧
        lutEntry L c i = (jsRound ((k : ℚ) * quantStep L)).toNat := by
  have h0 : 0 ≤ clamp255 (lutVal c i) := clamp255_nonneg _
  have h255 : clamp255 (lutVal c i) ≤ 255 := clamp255_le _
  have hrange := quantize_mem hL h0 h255
  have hentry : lutEntry L c i = (quantize (clamp255 (lutVal c i)) L).toNat := by
    rw [lutEntry, toUint8_eq_toNat hrange.1 hrange.2]
  have hk0 : 0 ≤ jsRound (clamp255 (lutVal c i) / quantStep L) :=
    jsRound_nonneg (div_nonneg h0 (quantStep_pos hL).le)
  have hk1 := level_index_le hL h255
  constructor
  · omega
  · refine ⟨(jsRound (clamp255 (lutVal c i) / quantStep L)).toNat, by omega, ?_⟩
    have hcast : ((jsRound (clamp255 (lutVal c i) / quantStep L) : ℤ) : ℚ)
        = (((jsRound (clamp255 (lutVal c i) / quantStep L)).toNat : ℕ) : ℚ) := by
      exact_mod_cast congrArg (Int.cast : ℤ → ℚ) (Int.toNat_of_nonneg hk0).symm
    rw [hentry, quantize, hcast]

theorem contrastFactor_pos {c : ℚ} (hc1 : -100 ≤ c) (hc2 : c ≤ 100) :
    0 < contrastFactor c := by
  rw [contrastFactor]
  apply div_pos <;> nlinarith

theorem lutVal_mono {c : ℚ} (hc1 : -100 ≤ c) (hc2 : c ≤ 100) {i j : ℕ}
    (hij : i ≤ j) : lutVal c i ≤ lutVal c j := by
  have hcast : (i : ℚ) ≤ (j : ℚ) := by exact_mod_cast hij
  rw [lutVal, lutVal]
  split_ifs with hc
  · have hf := (contrastFactor_pos hc1 hc2).le
    have := mul_le_mul_of_nonneg_left (sub_le_sub_right hcast 128) hf
    linarith
  · exact hcast

/-- A table entry for `levels = 1`: the zero step makes every entry 0. -/
theorem lutEntry_one (c : ℚ) (i : ℕ) : lutEntry 1 c i = 0 := by
  have hstep : quantStep 1 = 0 := by
    rw [quantStep]
    norm_num
  have h0 : jsRound 0 = 0 := by
    rw [jsRound]
    norm_num [Int.floor_eq_iff]
  rw [lutEntry, quantize, hstep, div_zero, h0, Int.cast_zero, mul_zero, h0]
  decide

theorem buildLUT_one (c : ℚ) : buildLUT 1 c = List.replicate 256 0 := by
  rw [buildLUT,
    List.map_congr_left (fun i _ => lutEntry_one c i),
    List.map_const', List.length_range]

/-- C2: for levels in {3,5,9} and any index i, the zero-contrast table entry
equals the direct double-round quantization of i, so with contrast 0 the
table is a pure function of the level count and the contrast branch is an
identity pass. -/
theorem C2_buildLUT_zero_quantizes (L : ℕ) (hL : L = 3 ∨ L = 5 ∨ L = 9)
    (i : ℕ) (hi : i < 256) :
    (buildLUT L 0).getD i 0 = (quantize (i : ℚ) L).toNat := by
  have h2 : 2 ≤ L := by rcases hL with h | h | h <;> omega
  rw [getD_buildLUT L 0 hi, lutEntry_zero h2 (by omega), quantize_natCast h2,
    Int.toNat_natCast]

theorem C2_witness :
    ((3 = 3 ∨ 3 = 5 ∨ 3 = 9) ∧ 64 < 256) ∧
      (buildLUT 3 0).getD 64 0 = (quantize ((64 : ℕ) : ℚ) 3).toNat :=
  ⟨⟨Or.inl rfl, by norm_num⟩,
    C2_buildLUT_zero_quantizes 3 (Or.inl rfl) 64 (by norm_num)⟩

set_option maxRecDepth 40000 in
/-- C4: buildLUT(3, 0) maps inputs 0 to 63 to tone 0, inputs 64 to 191 to
tone 128, and inputs 192 to 255 to tone 255. -/
theorem C4_buildLUT_three_bands (i : ℕ) (hi : i < 256) :
    (buildLUT 3 0).getD i 0 =
      if i ≤ 63 then 0 else if i ≤ 191 then 128 else 255 := by
  have hq : ∀ j, j < 256 → quantizeNat j 1 3 =
      if j ≤ 63 then 0 else if j ≤ 191 then 128 else 255 := by decide
  rw [getD_buildLUT 3 0 hi, lutEntry_zero (by norm_num) (by omega)]
  exact hq i hi

theorem C4_witness :
    64 < 256 ∧ (buildLUT 3 0).getD 64 0 =
      if 64 ≤ 63 then 0 else if 64 ≤ 191 then 128 else 255 :=
  ⟨by norm_num, C4_buildLUT_three_bands 64 (by norm_num)⟩

/-- C5: for the preset level counts and any contrast in [-100,100], every
table entry is a byte of the form round(k * 255/(levels-1)) for some level
index k ≤ levels - 1, and the table takes at most `levels` distinct values. -/
theorem C5_buildLUT_entry_form (L : ℕ) (hL : L = 3 ∨ L = 5 ∨ L = 9) (c : ℚ)
    (hc1 : -100 ≤ c) (hc2 : c ≤ 100) :
    (∀ i, i < 256 → (buildLUT L c).getD i 0 ≤ 255 ∧
      ∃ k : ℕ, k ≤ L - 1 ∧
        (buildLUT L c).getD i 0 = (jsRound ((k : ℚ) * quantStep L)).toNat) ∧
    (buildLUT L c).toFinset.card ≤ L := by
  have h2 : 2 ≤ L := by rcases hL with h | h | h <;> omega
  constructor
  · intro i hi
    rw [getD_buildLUT L c hi]
    exact lutEntry_form h2 c i
  · have hsub : (buildLUT L c).toFinset ⊆
        (Finset.range L).image fun (k : ℕ) =>
          (jsRound ((k : ℚ) * quantStep L)).toNat := by
      intro x hx
      rw [List.mem_toFinset, buildLUT] at hx
      obtain ⟨i, hi, rfl⟩ := List.mem_map.mp hx
      obtain ⟨-, k, hk, hke⟩ := lutEntry_form h2 c i
      rw [Finset.mem_image]
      exact ⟨k, Finset.mem_range.mpr (by omega), hke.symm⟩
    calc (buildLUT L c).toFinset.card
        ≤ ((Finset.range L).image fun (k : ℕ) =>
            (jsRound ((k : ℚ) * quantStep L)).toNat).card := Finset.card_le_card hsub
      _ ≤ (Finset.range L).card := Finset.card_image_le
      _ = L := Finset.card_range L

theorem C5_witness :
    ((3 = 3 ∨ 3 = 5 ∨ 3 = 9) ∧ (-100 : ℚ) ≤ 0 ∧ (0 : ℚ) ≤ 100) ∧
      ((∀ i, i < 256 → (buildLUT 3 0).getD i 0 ≤ 255 ∧
        ∃ k : ℕ, k ≤ 3 - 1 ∧
          (buildLUT 3 0).getD i 0 = (jsRound ((k : ℚ) * quantStep 3)).toNat) ∧
      (buildLUT 3 0).toFinset.card ≤ 3) :=
  ⟨⟨Or.inl rfl, by norm_num, by norm_num⟩,
    C5_buildLUT_entry_form 3 (Or.inl rfl) 0 (by norm_num) (by norm_num)⟩

/-- C10: for any levels ≥ 2 and contrast in [-100,100], the table is monotone
non-decreasing in its index: the contrast factor is strictly positive on this
domain and clamping and quantization preserve order. -/
theorem C10_buildLUT_monotone (L : ℕ) (hL : 2 ≤ L) (c : ℚ)
    (hc1 : -100 ≤ c) (hc2 : c ≤ 100) (i j : ℕ) (hij : i ≤ j) (hj : j ≤ 255) :
    (buildLUT L c).getD i 0 ≤ (buildLUT L c).getD j 0 := by
  rw [getD_buildLUT L c (by omega), getD_buildLUT L c (by omega)]
  have hq : clamp255 (lutVal c i) ≤ clamp255 (lutVal c j) :=
    clamp255_mono (lutVal_mono hc1 hc2 hij)
  have hqi := quantize_mem hL (clamp255_nonneg (lutVal c i)) (clamp255_le _)
  have hqj := quantize_mem hL (clamp255_nonneg (lutVal c j)) (clamp255_le _)
  have hmono := quantize_mono hL hq
  rw [lutEntry, lutEntry, toUint8_eq_toNat hqi.1 hqi.2, toUint8_eq_toNat hqj.1 hqj.2]
  omega

theorem C10_witness :
    (2 ≤ 3 ∧ (-100 : ℚ) ≤ 50 ∧ (50 : ℚ) ≤ 100 ∧ 10 ≤ 200 ∧ 200 ≤ 255) ∧
      (buildLUT 3 50).getD 10 0 ≤ (buildLUT 3 50).getD 200 0 :=
  ⟨⟨by norm_num, by norm_num, by norm_num, by norm_num, by norm_num⟩,
    C10_buildLUT_monotone 3 (by norm_num) 50 (by norm_num) (by norm_num)
      10 200 (by norm_num) (by norm_num)⟩

/-- C6 counterexample: buildLUT(1, 0) does return a fully valid 256-entry
table — every entry is 0 — rather than failing. -/
theorem C6_counterexample :
    buildLUT 1 0 = List.replicate 256 0 ∧ (buildLUT 1 0).length = 256 :=
  ⟨buildLUT_one 0, by rw [buildLUT_one 0, List.length_replicate]⟩

/-- C6 amended: with levels = 1 the step is a division by zero, but the call
does not fail: for every contrast it returns the full 256-entry all-zero
table (JS: value/Infinity is 0 and the NaN from 0 times Infinity is stored
as byte 0; the model yields the same all-zero table). -/
theorem C6_amended_returns_zero_table (c : ℚ) :
    buildLUT 1 c = List.replicate 256 0 :=
  buildLUT_one c

theorem rgbaPixelValues_applyLUT (gray lut : List ℕ) :
    rgbaPixelValues (applyLUTdata gray lut) = gray.map fun g => lut.getD g 0 := by
  induction gray with
  | nil => rfl
  | cons g rest ih => simp [applyLUTdata, rgbaPixelValues, ih]

theorem toneValues_saturated (gray lut : List ℕ)
    (hall : ∀ v, v ≤ 255 → v ∈ gray) (hmem : ∀ v ∈ gray, v ≤ 255) :
    toneValues gray lut = toneValues (List.range 256) lut := by
  rw [toneValues, toneValues, rgbaPixelValues_applyLUT, rgbaPixelValues_applyLUT]
  apply Finset.ext
  intro x
  simp only [List.mem_toFinset, List.mem_map, List.mem_range]
  constructor
  · rintro ⟨g, hg, rfl⟩
    exact ⟨g, by have := hmem g hg; omega, rfl⟩
  · rintro ⟨g, hg, rfl⟩
    exact ⟨g, hall g (by omega), rfl⟩

set_option maxRecDepth 100000 in
/-- C3: for levels in {3,5,9}, a grayscale buffer containing every value
0..255 produces, through the zero-contrast table, exactly `levels` distinct
output tones. -/
theorem C3_tone_count (L : ℕ) (hL : L = 3 ∨ L = 5 ∨ L = 9) (gray : List ℕ)
    (hall : ∀ v, v ≤ 255 → v ∈ gray) (hmem : ∀ v ∈ gray, v ≤ 255) :
    (toneValues gray (buildLUT L 0)).card = L := by
  have h2 : 2 ≤ L := by rcases hL with h | h | h <;> omega
  rw [toneValues_saturated gray _ hall hmem, toneValues, rgbaPixelValues_applyLUT,
    buildLUT_zero_eq L h2]
  rcases hL with rfl | rfl | rfl <;> decide

set_option maxRecDepth 100000 in
theorem C3_witness :
    ((3 = 3 ∨ 3 = 5 ∨ 3 = 9) ∧ (∀ v, v ≤ 255 → v ∈ List.range 256) ∧
      (∀ v ∈ List.range 256, v ≤ 255)) ∧
      (toneValues (List.range 256) (buildLUT 3 0)).card = 3 := by
  have hall : ∀ v, v ≤ 255 → v ∈ List.range 256 := by decide
  have hmem : ∀ v ∈ List.range 256, v ≤ 255 := by decide
  exact ⟨⟨Or.inl rfl, hall, hmem⟩, C3_tone_count 3 (Or.inl rfl) _ hall hmem⟩

/-- C7: for every grayscale buffer and LUT, pixel i of the output gets the
looked-up tone in R, G and B and 255 in alpha; concretely, applying a LUT
whose entry 76 is 128 to the one-sample buffer [76] yields the RGBA buffer
[128, 128, 128, 255]. -/
theorem C7_applyLUT_pixel (gray lut : List ℕ) (i : ℕ) (hi : i < gray.length) :
    ((applyLUTdata gray lut).getD (4*i) 0 = lut.getD (gray.getD i 0) 0 ∧
     (applyLUTdata gray lut).getD (4*i+1) 0 = lut.getD (gray.getD i 0) 0 ∧
     (applyLUTdata gray lut).getD (4*i+2) 0 = lut.getD (gray.getD i 0) 0 ∧
     (applyLUTdata gray lut).getD (4*i+3) 0 = 255) ∧
    demoLUT.getD 76 0 = 128 ∧
    applyLUTdata [76] demoLUT = [128, 128, 128, 255] := by
  refine ⟨⟨?_, ?_, ?_, ?_⟩, by decide, by decide⟩
  · have h := applyLUTdata_getD gray lut hi (show 0 < 4 by norm_num)
    simpa using h
  · have h := applyLUTdata_getD gray lut hi (show 1 < 4 by norm_num)
    simpa using h
  · have h := applyLUTdata_getD gray lut hi (show 2 < 4 by norm_num)
    simpa using h
  · have h := applyLUTdata_getD gray lut hi (show 3 < 4 by norm_num)
    simpa using h

theorem C7_witness :
    0 < ([76] : List ℕ).length ∧
      (((applyLUTdata [76] demoLUT).getD (4*0) 0
          = demoLUT.getD (([76] : List ℕ).getD 0 0) 0 ∧
        (applyLUTdata [76] demoLUT).getD (4*0+1) 0
          = demoLUT.getD (([76] : List ℕ).getD 0 0) 0 ∧
        (applyLUTdata [76] demoLUT).getD (4*0+2) 0
          = demoLUT.getD (([76] : List ℕ).getD 0 0) 0 ∧
        (applyLUTdata [76] demoLUT).getD (4*0+3) 0 = 255) ∧
      demoLUT.getD 76 0 = 128 ∧
      applyLUTdata [76] demoLUT = [128, 128, 128, 255]) :=
  ⟨by norm_num, C7_applyLUT_pixel [76] demoLUT 0 (by norm_num)⟩

/-- C8: on a well-formed RGBA buffer the extractor yields one sample per
pixel, equal to the rounded BT.601 luminance of that pixel, alpha ignored;
concretely a single pure-red pixel yields sample 76. -/
theorem C8_extractGrayscale_luminance (data : List ℕ) (w h : ℕ)
    (hlen : data.length = w * h * 4) (hbytes : ∀ v ∈ data, v ≤ 255) :
    (extractGrayscale ⟨data, w, h⟩).length = w * h ∧
    (∀ i, i < w * h →
      (extractGrayscale ⟨data, w, h⟩).getD i 0 =
        (jsRound (rgbToGray (data.getD (4*i) 0) (data.getD (4*i+1) 0)
          (data.getD (4*i+2) 0))).toNat) ∧
    extractGrayscale ⟨[255, 0, 0, 255], 1, 1⟩ = [76] := by
  refine ⟨extractGrayscale_length _, fun i hi => ?_, ?_⟩
  · rw [extractGrayscale_getD ⟨data, w, h⟩ hi]
    apply toUint8_eq_toNat (jsRound_nonneg (rgbToGray_nonneg _ _ _))
    apply jsRound_le
    have hr : data.getD (4*i) 0 ≤ 255 := getD_le_of_forall hbytes (by omega)
    have hg : data.getD (4*i+1) 0 ≤ 255 := getD_le_of_forall hbytes (by omega)
    have hb : data.getD (4*i+2) 0 ≤ 255 := getD_le_of_forall hbytes (by omega)
    have := rgbToGray_le_255 hr hg hb
    push_cast
    linarith
  · rw [show extractGrayscale ⟨[255, 0, 0, 255], 1, 1⟩
        = [toUint8 (jsRound (rgbToGray ((255 : ℕ) : ℚ) ((0 : ℕ) : ℚ) ((0 : ℕ) : ℚ)))]
        from rfl,
      gray_pixel_eval (by norm_num) (by norm_num) (by norm_num)]
    decide

theorem C8_witness :
    (([255, 0, 0, 255] : List ℕ).length = 1 * 1 * 4 ∧
      (∀ v ∈ ([255, 0, 0, 255] : List ℕ), v ≤ 255)) ∧
      ((extractGrayscale ⟨[255, 0, 0, 255], 1, 1⟩).length = 1 * 1 ∧
       (∀ i, i < 1 * 1 →
         (extractGrayscale ⟨[255, 0, 0, 255], 1, 1⟩).getD i 0 =
           (jsRound (rgbToGray (([255, 0, 0, 255] : List ℕ).getD (4*i) 0)
             (([255, 0, 0, 255] : List ℕ).getD (4*i+1) 0)
             (([255, 0, 0, 255] : List ℕ).getD (4*i+2) 0))).toNat) ∧
       extractGrayscale ⟨[255, 0, 0, 255], 1, 1⟩ = [76]) :=
  ⟨⟨by norm_num, by decide⟩,
    C8_extractGrayscale_luminance [255, 0, 0, 255] 1 1 (by norm_num) (by decide)⟩

/-- C9: with matching dimensions, applyLUT returns a buffer of length
width*height*4 in which pixel i is derived solely from grayscale sample i;
no resampling occurs. -/
theorem C9_applyLUT_layout (gray lut : List ℕ) (w h : ℕ)
    (hwh : gray.length = w * h) :
    applyLUT gray lut w h = some ⟨applyLUTdata gray lut, w, h⟩ ∧
    (applyLUTdata gray lut).length = w * h * 4 ∧
    ∀ i, i < w * h → ∀ k, k < 4 →
      (applyLUTdata gray lut).getD (4*i+k) 0 =
        if k = 3 then 255 else lut.getD (gray.getD i 0) 0 := by
  have hlen : (applyLUTdata gray lut).length = w * h * 4 := by
    rw [applyLUTdata_length, hwh]
    ring
  refine ⟨?_, hlen, fun i hi k hk => ?_⟩
  · rw [applyLUT, mkImageData, if_pos hlen]
  · exact applyLUTdata_getD gray lut (by omega) hk

theorem C9_witness :
    ([76] : List ℕ).length = 1 * 1 ∧
      (applyLUT [76] demoLUT 1 1 = some ⟨applyLUTdata [76] demoLUT, 1, 1⟩ ∧
       (applyLUTdata [76] demoLUT).length = 1 * 1 * 4 ∧
       ∀ i, i < 1 * 1 → ∀ k, k < 4 →
         (applyLUTdata [76] demoLUT).getD (4*i+k) 0 =
           if k = 3 then 255 else demoLUT.getD (([76] : List ℕ).getD i 0) 0) :=
  ⟨by norm_num, C9_applyLUT_layout [76] demoLUT 1 1 (by norm_num)⟩

/-- The table entry at a byte g agrees with the direct per-pixel computation
whenever the pixel luminance is exactly g. -/
theorem lut_matches_direct {L : ℕ} (hL : 2 ≤ L) (c : ℚ) {g r gg b : ℕ}
    (hg : g ≤ 255) (hluma : rgbToGray r gg b = (g : ℚ)) :
    lutEntry L c g = valueStudyPixel L c r gg b := by
  have hg0 : (0 : ℚ) ≤ (g : ℚ) := by positivity
  have hg255 : (g : ℚ) ≤ 255 := by exact_mod_cast hg
  rw [valueStudyPixel, hluma, lutEntry, lutVal, applyContrast]
  split_ifs with hc
  · have h0 : 0 ≤ clamp255 (contrastFactor c * ((g : ℚ) - 128) + 128) :=
      clamp255_nonneg _
    have h255 : clamp255 (contrastFactor c * ((g : ℚ) - 128) + 128) ≤ 255 :=
      clamp255_le _
    have hr := quantize_mem hL h0 h255
    rw [toUint8_eq_toNat hr.1 hr.2, toUint8Clamped_eq_toNat hr.1 hr.2]
  · have hr := quantize_mem hL hg0 hg255
    rw [clamp255_of_mem hg0 hg255, toUint8_eq_toNat hr.1 hr.2,
      toUint8Clamped_eq_toNat hr.1 hr.2]

/-- C1 counterexample: for the pixel (0, 100, 43), whose luminance is 63.602,
the split pipeline rounds the grayscale to 64 and quantizes it to tone 128,
while createValueStudy quantizes the unrounded luminance to tone 0. -/
theorem C1_counterexample :
    (applyLUTdata (extractGrayscale ⟨[0, 100, 43, 255], 1, 1⟩)
      (buildLUT 3 0)).getD 0 0 = 128 ∧
    (createValueStudyData [0, 100, 43, 255] 3 0).getD 0 0 = 0 ∧
    (128 : ℕ) ≠ 0 := by
  refine ⟨?_, ?_, by norm_num⟩
  · rw [show extractGrayscale ⟨[0, 100, 43, 255], 1, 1⟩
        = [toUint8 (jsRound (rgbToGray ((0 : ℕ) : ℚ) ((100 : ℕ) : ℚ) ((43 : ℕ) : ℚ)))]
        from rfl,
      gray_pixel_eval (by norm_num) (by norm_num) (by norm_num),
      show grayNat 0 100 43 = 64 from by decide,
      show (applyLUTdata [64] (buildLUT 3 0)).getD 0 0 = (buildLUT 3 0).getD 64 0
        from rfl,
      getD_buildLUT 3 0 (by norm_num), lutEntry_zero (by norm_num) (by norm_num)]
    decide
  · rw [show (createValueStudyData [0, 100, 43, 255] 3 0).getD 0 0
        = valueStudyPixel 3 0 0 100 43 from rfl,
      valueStudyPixel, if_neg (by norm_num), rgbToGray_natCast,
      quantize_natCast_div (by norm_num) (by norm_num),
      show quantizeNat (299*0 + 587*100 + 114*43) 1000 3 = 0 from by decide]
    decide

/-- C1 amended: the split pipeline matches createValueStudy on the R, G, B
channels of every pixel whose BT.601 luminance is an exact integer; in
general the two differ, because createValueStudy quantizes the unrounded
luminance while the split pipeline quantizes the byte-rounded grayscale
sample produced by extractGrayscale. -/
theorem C1_amended_split_agrees (data : List ℕ) (w h L : ℕ) (c : ℚ)
    (hL : L = 3 ∨ L = 5 ∨ L = 9) (hc1 : -100 ≤ c) (hc2 : c ≤ 100)
    (hlen : data.length = w * h * 4) (hbytes : ∀ v ∈ data, v ≤ 255)
    (hint : ∀ i, i < w * h → ∃ z : ℤ, rgbToGray (data.getD (4*i) 0)
      (data.getD (4*i+1) 0) (data.getD (4*i+2) 0) = (z : ℚ))
    (i k : ℕ) (hi : i < w * h) (hk : k < 3) :
    (applyLUTdata (extractGrayscale ⟨data, w, h⟩) (buildLUT L c)).getD (4*i+k) 0 =
      (createValueStudyData data L c).getD (4*i+k) 0 := by
  have h2 : 2 ≤ L := by rcases hL with hx | hx | hx <;> omega
  have hr : data.getD (4*i) 0 ≤ 255 := getD_le_of_forall hbytes (by omega)
  have hgch : data.getD (4*i+1) 0 ≤ 255 := getD_le_of_forall hbytes (by omega)
  have hbch : data.getD (4*i+2) 0 ≤ 255 := getD_le_of_forall hbytes (by omega)
  obtain ⟨z, hz⟩ := hint i hi
  have hz0 : 0 ≤ z := by
    have hpos := rgbToGray_nonneg (data.getD (4*i) 0) (data.getD (4*i+1) 0)
      (data.getD (4*i+2) 0)
    rw [hz] at hpos
    exact_mod_cast hpos
  have hz255 : z ≤ 255 := by
    have hle := rgbToGray_le_255 hr hgch hbch
    rw [hz] at hle
    exact_mod_cast hle
  have hsample : (extractGrayscale ⟨data, w, h⟩).getD i 0 = z.toNat := by
    rw [extractGrayscale_getD ⟨data, w, h⟩ hi, hz, jsRound_intCast,
      toUint8_eq_toNat hz0 hz255]
  have hglen : i < (extractGrayscale ⟨data, w, h⟩).length := by
    rw [extractGrayscale_length]
    exact hi
  rw [applyLUTdata_getD _ _ hglen (by omega), if_neg (by omega), hsample,
    createValueStudyData_getD data L c (by omega) (by omega), if_neg (by omega),
    getD_buildLUT L c (by omega)]
  apply lut_matches_direct h2 c (by omega)
  rw [hz]
  exact_mod_cast congrArg (Int.cast : ℤ → ℚ) (Int.toNat_of_nonneg hz0).symm

theorem C1_amended_witness :
    ((3 = 3 ∨ 3 = 5 ∨ 3 = 9) ∧ (-100 : ℚ) ≤ 0 ∧ (0 : ℚ) ≤ 100 ∧
     ([255, 255, 255, 255] : List ℕ).length = 1 * 1 * 4 ∧
     (∀ v ∈ ([255, 255, 255, 255] : List ℕ), v ≤ 255) ∧
     (∀ i, i < 1 * 1 → ∃ z : ℤ,
       rgbToGray (([255, 255, 255, 255] : List ℕ).getD (4*i) 0)
         (([255, 255, 255, 255] : List ℕ).getD (4*i+1) 0)
         (([255, 255, 255, 255] : List ℕ).getD (4*i+2) 0) = (z : ℚ)) ∧
     0 < 1 * 1 ∧ 0 < 3) ∧
    (applyLUTdata (extractGrayscale ⟨[255, 255, 255, 255], 1, 1⟩)
        (buildLUT 3 0)).getD (4*0+0) 0 =
      (createValueStudyData [255, 255, 255, 255] 3 0).getD (4*0+0) 0 := by
  have hint : ∀ i, i < 1 * 1 → ∃ z : ℤ,
      rgbToGray (([255, 255, 255, 255] : List ℕ).getD (4*i) 0)
        (([255, 255, 255, 255] : List ℕ).getD (4*i+1) 0)
        (([255, 255, 255, 255] : List ℕ).getD (4*i+2) 0) = (z : ℚ) := by
    intro i hi
    have hi0 : i = 0 := by omega
    subst hi0
    exact ⟨255, by norm_num [rgbToGray]⟩
  exact ⟨⟨Or.inl rfl, by norm_num, by norm_num, by norm_num, by decide, hint,
      by norm_num, by norm_num⟩,
    C1_amended_split_agrees [255, 255, 255, 255] 1 1 3 0 (Or.inl rfl)
      (by norm_num) (by norm_num) (by norm_num) (by decide) hint 0 0
      (by norm_num) (by norm_num)⟩
